import Mathlib

/-!
Verification of the step-resolution and execution engine of the `timid`
test-step runner (`timid/steps.py`, `timid/main.py`, `timid/utils.py`).

The Python code is shallowly embedded: pure fragments become Lean
functions, fallible constructors and parsing become `Except`-valued
functions, and the step call protocol is given a trace semantics so that
statements about *which hooks run, in which order* can be made precise.
-/

namespace Timid

/-! ## Result states (`timid/steps.py` lines 31-36)

The source represents states as the integers 0..3 and relies on integer
ordering (`max`) for aggregation, so we embed them as `Nat` constants. -/

def SKIPPED : Nat := 0

def SUCCESS : Nat := 1

def FAILURE : Nat := 2

def ERROR : Nat := 3

/-- `states` list used by the driver loop to print a state's name. -/
def states : List String := ["SKIPPED", "SUCCESS", "FAILURE", "ERROR"]

/-- Python exceptions that the embedded fragments can raise.  `typeError`
models a `TypeError` (e.g. an unexpected keyword argument, or comparing
`None` with an `int`); `valueError` models `ValueError` (e.g. `max()` of
an empty sequence). -/
inductive PyExc where
  | typeError
  | valueError
deriving DecidableEq, Repr

/-- Captured exception information (`sys.exc_info()`); the payload is
opaque to the engine, only its presence matters. -/
structure ExcInfo where
  excName : String
deriving DecidableEq, Repr

/-- `StepResult` (`timid/steps.py` lines 596-681): the uniform outcome
value.  `state` is `Option Nat` because the Python attribute may remain
`None`; `_ignore` is the tri-state ignore flag (`None`/`False`/`True`);
`results` is the (possibly empty) list of child results stored by the
constructor.  The type is an inductive because it is recursive through
`results`. -/
inductive StepResult where
  | mk (msg : Option String) (exc_info : Option ExcInfo)
       (returncode : Option Int) (results : List StepResult)
       (state : Option Nat) (_ignore : Option Bool)

def StepResult.msg : StepResult → Option String
  | .mk m _ _ _ _ _ => m

def StepResult.exc_info : StepResult → Option ExcInfo
  | .mk _ e _ _ _ _ => e

def StepResult.returncode : StepResult → Option Int
  | .mk _ _ rc _ _ _ => rc

def StepResult.results : StepResult → List StepResult
  | .mk _ _ _ rs _ _ => rs

def StepResult.state : StepResult → Option Nat
  | .mk _ _ _ _ st _ => st

/-- The stored tri-state ignore flag (`self._ignore`). -/
def StepResult.ignoreFlag : StepResult → Option Bool
  | .mk _ _ _ _ _ ig => ig

/-- The `ignore` property getter (`timid/steps.py` lines 666-672):
`return self._ignore or False`. -/
def StepResult.ignore (r : StepResult) : Bool :=
  r.ignoreFlag.getD false

/-- The `ignore` property setter (`timid/steps.py` lines 674-681): the
value is stored only while `self._ignore is None`. -/
def StepResult.setIgnore (r : StepResult) (value : Bool) : StepResult :=
  match r with
  | .mk m e rc rs st ig =>
    if ig = none then .mk m e rc rs st (some value) else .mk m e rc rs st ig

/-- `StepResult.__bool__` (`timid/steps.py` lines 653-664):
`return self._ignore or self.state in (SKIPPED, SUCCESS)`.  A `None`
`_ignore` is falsy, and `None in (SKIPPED, SUCCESS)` is `False`. -/
def StepResult.toBool (r : StepResult) : Bool :=
  r.ignoreFlag.getD false ||
    (match r.state with
     | some s => s == SKIPPED || s == SUCCESS
     | none => false)

/-- Python's `max()` applied to the generator `(r.state for r in results)`.
`max` of an empty sequence raises `ValueError`; with two or more elements
every element is compared with `>`, so a `None` among them raises
`TypeError`; a singleton is returned without any comparison. -/
def pyMaxState (l : List (Option Nat)) : Except PyExc (Option Nat) :=
  match l with
  | [] => .error .valueError
  | [s] => .ok s
  | _ =>
    if l.all (·.isSome) then
      .ok (some ((l.filterMap id).foldl Nat.max 0))
    else
      .error .typeError

/-- `StepResult.__init__` (`timid/steps.py` lines 601-651), with the
argument defaults made explicit.  The inference order follows the source:
`exc_info` first, then `returncode`, then the child-results aggregation
(whose `max` over the children's states can raise). -/
def stepResultInit (state : Option Nat) (msg : Option String)
    (ignore : Option Bool) (returncode : Option Int)
    (exc_info : Option ExcInfo) (results : Option (List StepResult)) :
    Except PyExc StepResult := do
  -- if exc_info is not None and state is None: state = ERROR
  let state := if exc_info.isSome && state.isNone then some ERROR else state
  -- if returncode is not None and state is None: state = SUCCESS/FAILURE
  let state :=
    match returncode, state with
    | some rc, none => some (if rc = 0 then SUCCESS else FAILURE)
    | _, st => st
  -- self.results = results or []
  let resultsList := results.getD []
  -- if results is not None: infer state (may raise) and ignore
  let (state, ignore) ←
    match results with
    | some rs => do
        let st ←
          if state.isNone then pyMaxState (rs.map (·.state)) else pure state
        let ig :=
          if ignore.isNone then some (rs.any (·.ignore)) else ignore
        pure (st, ig)
    | none => pure (state, ignore)
  pure (.mk msg exc_info returncode resultsList state ignore)

/-! Helper lemmas about the folded maximum used by `pyMaxState`. -/

lemma le_foldl_max (l : List Nat) (a : Nat) : a ≤ l.foldl Nat.max a := by
  induction l generalizing a with
  | nil => exact le_refl a
  | cons y ys ih => exact le_trans (Nat.le_max_left a y) (ih (Nat.max a y))

lemma foldl_max_le {x : Nat} :
    ∀ (l : List Nat) (a : Nat), x ∈ l → x ≤ l.foldl Nat.max a
  | [], _, hx => by cases hx
  | y :: ys, a, hx => by
    rcases List.mem_cons.mp hx with hx | hx
    · subst hx
      exact le_trans (Nat.le_max_right a x) (le_foldl_max ys _)
    · exact foldl_max_le ys (Nat.max a y) hx

lemma foldl_max_mem (l : List Nat) (a : Nat) :
    l.foldl Nat.max a = a ∨ l.foldl Nat.max a ∈ l := by
  induction l generalizing a with
  | cons y ys ih =>
    rw [List.foldl_cons]
    rcases ih (Nat.max a y) with h | h
    · rw [h]
      rcases Nat.le_total a y with hle | hle
      · have hm : Nat.max a y = y := Nat.max_eq_right hle
        rw [hm]
        exact Or.inr (List.mem_cons_self _ _)
      · have hm : Nat.max a y = a := Nat.max_eq_left hle
        rw [hm]
        exact Or.inl rfl
    · exact Or.inr (List.mem_cons_of_mem _ h)
  | nil => exact Or.inl rfl

lemma foldl_max_zero_mem {l : List Nat} (hne : l ≠ []) :
    l.foldl Nat.max 0 ∈ l := by
  rcases foldl_max_mem l 0 with h | h
  · cases l with
    | nil => exact absurd rfl hne
    | cons x xs =>
      have hx : x ≤ (x :: xs).foldl Nat.max 0 :=
        foldl_max_le (x :: xs) 0 (List.mem_cons_self x xs)
      rw [h] at hx
      rw [h]
      have hx0 : x = 0 := Nat.le_zero.mp hx
      rw [← hx0]
      exact List.mem_cons_self x xs
  · exact h

lemma pyMaxState_all_some {rs : List (Option Nat)} (hne : rs ≠ [])
    (hall : ∀ x ∈ rs, x.isSome) :
    pyMaxState rs = .ok (some ((rs.filterMap id).foldl Nat.max 0)) := by
  cases rs with
  | nil => exact absurd rfl hne
  | cons a tl =>
    cases tl with
    | nil =>
      obtain ⟨v, hv⟩ :=
        Option.isSome_iff_exists.mp (hall a (List.mem_cons_self a []))
      subst hv
      simp [pyMaxState, Nat.zero_max]
    | cons b rest =>
      have hall' : (a :: b :: rest).all (·.isSome) = true :=
        List.all_eq_true.mpr (fun x hx => hall x hx)
      simp only [pyMaxState, hall', if_true]

lemma filterMap_state_ne_nil {rs : List StepResult} (hne : rs ≠ [])
    (hall : ∀ x ∈ rs, x.state.isSome) :
    rs.filterMap (·.state) ≠ [] := by
  match rs, hne with
  | x :: xs, _ =>
    obtain ⟨v, hv⟩ :=
      Option.isSome_iff_exists.mp (hall x (List.mem_cons_self x xs))
    simp [List.filterMap_cons, hv]

/-- C2: a `StepResult` constructed with no explicit state infers its state
from, in order: captured exception info (always `ERROR`), a process return
code (`SUCCESS` iff the code is 0, otherwise `FAILURE`), or a non-empty
list of child results (the maximum child state under
`SKIPPED < SUCCESS < FAILURE < ERROR`); in the child-results case with no
explicit ignore, the ignore flag is true iff some child's ignore is
true. -/
theorem c2_stepResult_state_inference :
    (∀ (msg : Option String) (ig : Option Bool) (rc : Option Int)
       (e : ExcInfo) (results : Option (List StepResult)),
       ∃ r, stepResultInit none msg ig rc (some e) results = .ok r ∧
            r.state = some ERROR) ∧
    (∀ (msg : Option String) (ig : Option Bool) (rc : Int)
       (results : Option (List StepResult)),
       ∃ r, stepResultInit none msg ig (some rc) none results = .ok r ∧
            r.state = some (if rc = 0 then SUCCESS else FAILURE)) ∧
    (∀ (msg : Option String) (rs : List StepResult),
       rs ≠ [] → (∀ x ∈ rs, x.state.isSome) →
       ∃ r m, stepResultInit none msg none none none (some rs) = .ok r ∧
            r.state = some m ∧
            m ∈ rs.filterMap (·.state) ∧
            (∀ s ∈ rs.filterMap (·.state), s ≤ m) ∧
            (r.ignore = true ↔ ∃ c ∈ rs, c.ignore = true)) := by
  refine ⟨?_, ?_, ?_⟩
  · intro msg ig rc e results
    cases results <;> cases rc <;> exact ⟨_, rfl, rfl⟩
  · intro msg ig rc results
    cases results with
    | none => exact ⟨_, rfl, rfl⟩
    | some rs => exact ⟨_, rfl, rfl⟩
  · intro msg rs hne hall
    have hne' : rs.map (·.state) ≠ [] := by simpa using hne
    have hallm : ∀ x ∈ rs.map (·.state), x.isSome := by
      intro x hx
      obtain ⟨y, hy, hxy⟩ := List.mem_map.mp hx
      exact hxy ▸ hall y hy
    have hmax := pyMaxState_all_some hne' hallm
    have hinit : stepResultInit none msg none none none (some rs) =
        .ok (.mk msg none none rs
              (some (((rs.map (·.state)).filterMap id).foldl Nat.max 0))
              (some (rs.any (·.ignore)))) := by
      simp [stepResultInit, hmax]
    have hfm : (rs.map (·.state)).filterMap id = rs.filterMap (·.state) := by
      simp
    refine ⟨_, _, hinit, rfl, ?_, ?_, ?_⟩
    · rw [hfm]
      exact foldl_max_zero_mem (filterMap_state_ne_nil hne hall)
    · intro s hs
      rw [hfm]
      exact foldl_max_le _ 0 hs
    · show (StepResult.mk msg none none rs _ (some (rs.any (·.ignore)))).ignore
          = true ↔ _
      simp only [StepResult.ignore, StepResult.ignoreFlag, Option.getD]
      exact List.any_eq_true

/-- Witness for C2 at the concrete child list
`[SUCCESS result, FAILURE result with ignore=true]`. -/
theorem c2_stepResult_state_inference_witness :
    ∃ r m, stepResultInit none none none none none
        (some [StepResult.mk none none none [] (some SUCCESS) none,
               StepResult.mk none none none [] (some FAILURE) (some true)]) =
        .ok r ∧
      r.state = some m ∧
      m ∈ [StepResult.mk none none none [] (some SUCCESS) none,
           StepResult.mk none none none [] (some FAILURE)
             (some true)].filterMap (·.state) ∧
      (∀ s ∈ [StepResult.mk none none none [] (some SUCCESS) none,
              StepResult.mk none none none [] (some FAILURE)
                (some true)].filterMap (·.state), s ≤ m) ∧
      (r.ignore = true ↔
        ∃ c ∈ [StepResult.mk none none none [] (some SUCCESS) none,
               StepResult.mk none none none [] (some FAILURE) (some true)],
          c.ignore = true) :=
  c2_stepResult_state_inference.2.2 none
    [StepResult.mk none none none [] (some SUCCESS) none,
     StepResult.mk none none none [] (some FAILURE) (some true)]
    (by simp)
    (by intro x hx
        cases hx with
        | head => rfl
        | tail _ hx2 =>
          cases hx2 with
          | head => rfl
          | tail _ hx3 => cases hx3)

/-- C3: `StepResult.__bool__` is true iff the ignore flag is true or the
state is SKIPPED or SUCCESS; in particular FAILURE/ERROR with the ignore
flag unset or false is falsy and FAILURE with ignore true is truthy. -/
theorem c3_stepResult_truthiness (r : StepResult) :
    r.toBool = true ↔
      (r.ignore = true ∨ r.state = some SKIPPED ∨ r.state = some SUCCESS) := by
  unfold StepResult.toBool StepResult.ignore
  cases hig : r.ignoreFlag with
  | none =>
    cases hst : r.state with
    | none => simp
    | some s => simp [SKIPPED, SUCCESS]
  | some b =>
    cases hst : r.state with
    | none => cases b <;> simp
    | some s => cases b <;> simp [SKIPPED, SUCCESS]

/-- C7: the `ignore` getter returns false while the flag is unset, and the
setter stores the assigned value only when the flag is unset; once the
flag holds an explicit boolean, every further assignment is a no-op. -/
theorem c7_ignore_first_write_wins (r : StepResult) (v : Bool) :
    (r.ignoreFlag = none →
       r.ignore = false ∧ (r.setIgnore v).ignoreFlag = some v) ∧
    (∀ b, r.ignoreFlag = some b → r.setIgnore v = r) := by
  cases r with
  | mk m e rc rs st ig =>
    constructor
    · intro h
      simp only [StepResult.ignoreFlag] at h
      subst h
      exact ⟨rfl, rfl⟩
    · intro b h
      simp only [StepResult.ignoreFlag] at h
      subst h
      simp [StepResult.setIgnore]

/-- Witness for C7 at a concrete FAILURE result with the flag unset, then
set to `true`. -/
theorem c7_ignore_first_write_wins_witness :
    ((StepResult.mk none none none [] (some FAILURE) none).ignore = false ∧
     ((StepResult.mk none none none [] (some FAILURE) none).setIgnore
        true).ignoreFlag = some true) ∧
    ((StepResult.mk none none none [] (some FAILURE)
        (some true)).setIgnore false =
      StepResult.mk none none none [] (some FAILURE) (some true)) :=
  ⟨(c7_ignore_first_write_wins
      (StepResult.mk none none none [] (some FAILURE) none) true).1 rfl,
   (c7_ignore_first_write_wins
      (StepResult.mk none none none [] (some FAILURE) (some true)) false).2
      true rfl⟩

lemma stepResultInit_empty_results (msg : Option String) (ig : Option Bool) :
    stepResultInit none msg ig none none (some []) = .error .valueError := rfl

/-- C10: constructing a `StepResult` from an empty child-result list with
no explicit state raises (`max()` of an empty sequence) instead of
producing a value, and an aggregating construction only yields a value
when the child list is non-empty or an explicit state is supplied. -/
theorem c10_empty_results_raises :
    (∀ (msg : Option String) (ig : Option Bool),
       stepResultInit none msg ig none none (some []) = .error .valueError) ∧
    (∀ (state : Option Nat) (msg : Option String) (ig : Option Bool)
       (rs : List StepResult),
       (stepResultInit state msg ig none none (some rs)).isOk = true →
       state.isSome = true ∨ rs ≠ []) := by
  constructor
  · intro msg ig
    exact stepResultInit_empty_results msg ig
  · intro state msg ig rs h
    cases state with
    | some s => exact Or.inl rfl
    | none =>
      cases rs with
      | cons x xs => exact Or.inr (by simp)
      | nil =>
        rw [stepResultInit_empty_results msg ig] at h
        cases h

/-- Witness for C10: the empty-children construction errors, and a
construction that succeeds (explicit state, empty children) satisfies the
necessary condition. -/
theorem c10_empty_results_raises_witness :
    stepResultInit none none none none none (some []) = .error .valueError ∧
    ((some SUCCESS : Option Nat).isSome = true ∨ ([] : List StepResult) ≠ []) :=
  ⟨c10_empty_results_raises.1 none none,
   c10_empty_results_raises.2 (some SUCCESS) none none [] rfl⟩

/-! ## The Step call protocol (`timid/steps.py` lines 554-593)

`Step.__call__` walks the stored modifier list forward invoking
`pre_call`, then (absent a short-circuit) invokes the action, then walks
backward invoking `post_call`.  We give it a trace semantics: the value
also carries the list of hook/action invocation events, so ordering
claims are statements about the trace.  The `pre_mod`/`post_mod` slice
arguments the source passes to each hook are fully determined by the step
and the hook's index, so they are absorbed into the per-modifier
functions, and the mutable context object becomes an opaque value of type
`C` passed to every hook. -/

/-- An observable event during `Step.__call__`: `pre i` / `post i` are
`modifiers[i].pre_call` / `modifiers[i].post_call`, `act` is the action
invocation. -/
inductive Event where
  | pre (i : Nat)
  | act
  | post (i : Nat)
deriving DecidableEq, Repr

/-- A modifier as seen by the call protocol: its `pre_call` hook may
short-circuit by returning a result, its `post_call` hook rewrites the
working result. -/
structure ModifierRT (C : Type) where
  pre_call : C → Option StepResult
  post_call : C → StepResult → StepResult

/-- What invoking the action does: raise an exception, or return `None`,
or return a result. -/
inductive ActionOutcome where
  | raises (e : ExcInfo)
  | returns (r : Option StepResult)

/-- The forward pass (`timid/steps.py` lines 565-572): walk the modifiers
from index `i` upward, invoking `pre_call`; stop at the first non-`None`
return value.  Returns the event trace and the optional short-circuit
(index, result) pair. -/
def forwardPass {C : Type} (ctxt : C) :
    List (ModifierRT C) → Nat → List Event × Option (Nat × StepResult)
  | [], _ => ([], none)
  | m :: rest, i =>
    match m.pre_call ctxt with
    | some r => ([Event.pre i], some (i, r))
    | none =>
      let fwd := forwardPass ctxt rest (i + 1)
      (Event.pre i :: fwd.1, fwd.2)

/-- The reverse pass (`timid/steps.py` lines 586-591): invoke `post_call`
on modifiers `n-1, n-2, ..., 0`, threading the working result.  The
source's `range(i, -1, -1)` start index `i` corresponds to `n = i + 1`,
and the `i = -1` no-modifier case to `n = 0`. -/
def reversePass {C : Type} (mods : List (ModifierRT C)) (ctxt : C) :
    Nat → StepResult → List Event × StepResult
  | 0, r => ([], r)
  | n + 1, r =>
    match mods[n]? with
    | some m =>
      let rev := reversePass mods ctxt n (m.post_call ctxt r)
      (Event.post n :: rev.1, rev.2)
    | none => reversePass mods ctxt n r

/-- The `StepResult` built at `timid/steps.py` line 580 when the action
raises: `StepResult(exc_info=sys.exc_info())`. -/
def mkExcResult (e : ExcInfo) : StepResult :=
  .mk none (some e) none [] (some ERROR) none

lemma mkExcResult_eq_init (e : ExcInfo) :
    stepResultInit none none none none (some e) none = .ok (mkExcResult e) :=
  rfl

/-- `Step.__call__` (`timid/steps.py` lines 554-593).  When the action
returns `None`, the source executes `StepResult(status=ERROR)`; since
`StepResult.__init__` has no parameter named `status` (its name is
`state`), this raises `TypeError`, which propagates out of
`Step.__call__` — hence the `.error .typeError` branch. -/
def stepCall {C : Type} (mods : List (ModifierRT C))
    (action : C → ActionOutcome) (ctxt : C) :
    List Event × Except PyExc StepResult :=
  let fwd := forwardPass ctxt mods 0
  match fwd.2 with
  | some (i, r) =>
    let rev := reversePass mods ctxt (i + 1) r
    (fwd.1 ++ rev.1, .ok rev.2)
  | none =>
    match action ctxt with
    | .raises e =>
      let rev := reversePass mods ctxt mods.length (mkExcResult e)
      (fwd.1 ++ Event.act :: rev.1, .ok rev.2)
    | .returns (some r) =>
      let rev := reversePass mods ctxt mods.length r
      (fwd.1 ++ Event.act :: rev.1, .ok rev.2)
    | .returns none =>
      (fwd.1 ++ [Event.act], .error .typeError)

/-- `[pre i, pre (i+1), ..., pre (i+n-1)]`: the forward-pass trace. -/
def presFrom (i n : Nat) : List Event := (List.range' i n).map Event.pre

/-- `[post (n-1), ..., post 1, post 0]`: the reverse-pass trace. -/
def postsDown (n : Nat) : List Event :=
  ((List.range n).reverse).map Event.post

/-- The result of passing `r` through `post_call` of modifiers
`n-1, ..., 0` in descending index order, written as an independent fold
for use in specifications. -/
def applyPosts {C : Type} (mods : List (ModifierRT C)) (ctxt : C)
    (n : Nat) (r : StepResult) : StepResult :=
  ((mods.take n).reverse).foldl (fun acc m => m.post_call ctxt acc) r

lemma postsDown_succ (n : Nat) :
    postsDown (n + 1) = Event.post n :: postsDown n := by
  simp [postsDown, List.range_succ]

lemma applyPosts_succ {C : Type} (mods : List (ModifierRT C)) (ctxt : C)
    (n : Nat) (hn : n < mods.length) (r : StepResult) :
    applyPosts mods ctxt (n + 1) r =
      applyPosts mods ctxt n ((mods[n]).post_call ctxt r) := by
  unfold applyPosts
  simp only [List.foldl_reverse]
  rw [List.take_succ, List.getElem?_eq_getElem hn]
  simp only [Option.toList_some, List.foldr_append, List.foldr_cons,
    List.foldr_nil]

lemma reversePass_eq {C : Type} (mods : List (ModifierRT C)) (ctxt : C) :
    ∀ (n : Nat), n ≤ mods.length → ∀ (r : StepResult),
      reversePass mods ctxt n r = (postsDown n, applyPosts mods ctxt n r)
  | 0, _, r => rfl
  | n + 1, h, r => by
    have hn : n < mods.length := h
    simp only [reversePass, List.getElem?_eq_getElem hn]
    rw [reversePass_eq mods ctxt n (Nat.le_of_lt hn)]
    rw [postsDown_succ, applyPosts_succ mods ctxt n hn]

lemma forwardPass_none {C : Type} (ctxt : C) :
    ∀ (mods : List (ModifierRT C)) (k : Nat),
      (∀ (j : Nat) (mj : ModifierRT C),
         mods[j]? = some mj → mj.pre_call ctxt = none) →
      forwardPass ctxt mods k = (presFrom k mods.length, none)
  | [], k, _ => by simp [forwardPass, presFrom]
  | m :: rest, k, h => by
    have h0 : m.pre_call ctxt = none := h 0 m (by simp)
    have hrest : ∀ (j : Nat) (mj : ModifierRT C),
        rest[j]? = some mj → mj.pre_call ctxt = none :=
      fun j mj hj => h (j + 1) mj (by simpa using hj)
    simp only [forwardPass, h0]
    rw [forwardPass_none ctxt rest (k + 1) hrest]
    simp [presFrom, List.range'_succ]

lemma forwardPass_sc {C : Type} (ctxt : C) :
    ∀ (mods : List (ModifierRT C)) (i : Nat) (m : ModifierRT C)
      (r : StepResult) (k : Nat),
      mods[i]? = some m → m.pre_call ctxt = some r →
      (∀ (j : Nat) (mj : ModifierRT C),
         j < i → mods[j]? = some mj → mj.pre_call ctxt = none) →
      forwardPass ctxt mods k = (presFrom k (i + 1), some (k + i, r))
  | [], i, m, r, k, hm, _, _ => by simp at hm
  | m0 :: rest, 0, m, r, k, hm, hr, _ => by
    obtain rfl : m0 = m := by simpa using hm
    simp [forwardPass, hr, presFrom]
  | m0 :: rest, i + 1, m, r, k, hm, hr, hbelow => by
    have h0 : m0.pre_call ctxt = none :=
      hbelow 0 m0 (Nat.succ_pos i) (by simp)
    simp only [forwardPass, h0]
    rw [forwardPass_sc ctxt rest i m r (k + 1) (by simpa using hm) hr
        (fun j mj hj hjm =>
          hbelow (j + 1) mj (Nat.succ_lt_succ hj) (by simpa using hjm))]
    have harith : k + 1 + i = k + (i + 1) := by omega
    simp [presFrom, List.range'_succ k (i + 1) 1, harith]

lemma getElem?_lt_length {α : Type} {l : List α} {i : Nat} {a : α}
    (h : l[i]? = some a) : i < l.length := by
  by_contra hc
  rw [List.getElem?_eq_none (Nat.le_of_not_lt hc)] at h
  cases h

/-- C1 (amended): invoking a Step runs `pre_call` on the modifiers in
ascending stored order; if the modifier at index `i` is the first to
return non-null, modifiers after `i` never run any hook, the action is
never invoked, and the result is that value passed through `post_call` of
modifiers `i` down to `0`; if no modifier returns non-null, the action is
invoked and — provided the action returns a non-null value or raises —
`post_call` runs on all `N` modifiers in descending index order, each
hook exactly once (the trace equalities list every hook exactly once).
The proviso is forced by the source: an action returning `None` makes
`Step.__call__` raise `TypeError` before the reverse pass (see the
counterexample and claim C4). -/
theorem c1_call_protocol_order {C : Type} (mods : List (ModifierRT C))
    (action : C → ActionOutcome) (ctxt : C) :
    (∀ (i : Nat) (m : ModifierRT C) (r : StepResult),
       mods[i]? = some m → m.pre_call ctxt = some r →
       (∀ (j : Nat) (mj : ModifierRT C),
          j < i → mods[j]? = some mj → mj.pre_call ctxt = none) →
       stepCall mods action ctxt =
         (presFrom 0 (i + 1) ++ postsDown (i + 1),
          .ok (applyPosts mods ctxt (i + 1) r))) ∧
    ((∀ (j : Nat) (mj : ModifierRT C),
        mods[j]? = some mj → mj.pre_call ctxt = none) →
       (∀ r, action ctxt = .returns (some r) →
          stepCall mods action ctxt =
            (presFrom 0 mods.length ++ Event.act :: postsDown mods.length,
             .ok (applyPosts mods ctxt mods.length r))) ∧
       (∀ e, action ctxt = .raises e →
          stepCall mods action ctxt =
            (presFrom 0 mods.length ++ Event.act :: postsDown mods.length,
             .ok (applyPosts mods ctxt mods.length (mkExcResult e))))) := by
  constructor
  · intro i m r hm hr hbelow
    have hi : i < mods.length := getElem?_lt_length hm
    unfold stepCall
    rw [forwardPass_sc ctxt mods i m r 0 hm hr hbelow]
    simp only [Nat.zero_add]
    rw [reversePass_eq mods ctxt (i + 1) hi]
  · intro hnone
    have hfwd := forwardPass_none ctxt mods 0 hnone
    constructor
    · intro r hr
      unfold stepCall
      rw [hfwd, hr]
      show (presFrom 0 mods.length ++
              Event.act :: (reversePass mods ctxt mods.length r).1,
            Except.ok (reversePass mods ctxt mods.length r).2) = _
      rw [reversePass_eq mods ctxt mods.length (le_refl _)]
    · intro e he
      unfold stepCall
      rw [hfwd, he]
      show (presFrom 0 mods.length ++
              Event.act ::
                (reversePass mods ctxt mods.length (mkExcResult e)).1,
            Except.ok
              (reversePass mods ctxt mods.length (mkExcResult e)).2) = _
      rw [reversePass_eq mods ctxt mods.length (le_refl _)]

/-- A modifier whose hooks are inert: `pre_call` returns `None`,
`post_call` returns the result unchanged (the source's default
implementations). -/
def inertModifier : ModifierRT Unit :=
  { pre_call := fun _ => none, post_call := fun _ r => r }

/-- An action that completes normally but returns `None`. -/
def nullAction : Unit → ActionOutcome := fun _ => .returns none

/-- Counterexample to C1 as stated: with one modifier whose `pre_call`
returns null (so no short-circuit) and an action that returns null, the
trace contains no `post_call` event at all — the reverse pass never runs,
because `Step.__call__` raises `TypeError` at the
`StepResult(status=ERROR)` call — contradicting "post_call runs on all N
modifiers ... each hook exactly once". -/
theorem c1_counterexample_null_action :
    (stepCall [inertModifier] nullAction ()).1 = [Event.pre 0, Event.act] ∧
    Event.post 0 ∉ (stepCall [inertModifier] nullAction ()).1 ∧
    inertModifier.pre_call () = none ∧
    (stepCall [inertModifier] nullAction ()).2 = .error .typeError :=
  ⟨rfl, by decide, rfl, rfl⟩

/-- Witness for C1 at two concrete modifiers with a short-circuit at
index 1 and, separately, a run with no short-circuit. -/
theorem c1_call_protocol_order_witness :
    stepCall [inertModifier,
        { pre_call := fun _ => some (StepResult.mk none none none [] (some SKIPPED) none),
          post_call := fun _ r => r }]
        (fun _ => ActionOutcome.returns
          (some (StepResult.mk none none none [] (some SUCCESS) none))) () =
      (presFrom 0 2 ++ postsDown 2,
       .ok (applyPosts [inertModifier,
         { pre_call := fun _ => some (StepResult.mk none none none [] (some SKIPPED) none),
           post_call := fun _ r => r }] () 2
         (StepResult.mk none none none [] (some SKIPPED) none))) ∧
    stepCall [inertModifier]
        (fun _ => ActionOutcome.returns
          (some (StepResult.mk none none none [] (some SUCCESS) none))) () =
      (presFrom 0 1 ++ Event.act :: postsDown 1,
       .ok (applyPosts [inertModifier] () 1
         (StepResult.mk none none none [] (some SUCCESS) none))) :=
  ⟨(c1_call_protocol_order _ _ ()).1 1 _ _ rfl rfl
      (by intro j mj hj hjm
          match j, hj, hjm with
          | 0, _, hjm => exact (by simpa using hjm.symm : mj = inertModifier) ▸ rfl),
   ((c1_call_protocol_order [inertModifier] _ ()).2
      (by intro j mj hjm
          match j, hjm with
          | 0, hjm => exact (by simpa using hjm.symm : mj = inertModifier) ▸ rfl
          | j + 1, hjm => simp at hjm)).1 _ rfl⟩

/-- C4 (failing-input evaluation): a step with no modifiers whose action
completes normally with `None` makes `Step.__call__` raise `TypeError`
(the source calls `StepResult(status=ERROR)`, but the constructor's
parameter is named `state`), instead of producing an ERROR result. -/
theorem c4_null_action_raises_typeerror :
    stepCall ([] : List (ModifierRT Unit)) nullAction () =
      ([Event.act], .error .typeError) := rfl

/-! ## The driver loop (`timid/main.py` lines 199-231)

The loop is modelled at verbosity >= 1 (progress output enabled).  Each
iteration's external inputs — the step's display name, the
`exts.pre_step` skip decision, and the step's result as it stands after
`exts.post_step` — are packaged in a `DriverStep`.  The loop returns the
printed per-step lines and the function's return value (`None` on
success, a failure message on the first falsy result). -/

structure DriverStep where
  name : String
  skip : Bool
  result : StepResult

/-- The per-step progress prefix printed at `timid/main.py` line 203:
`'[Step %d]: %s . . . ' % (idx, step.name)`, where `idx` is the 0-based
`enumerate` index. -/
def progressLine (idx : Nat) (name : String) : String :=
  "[Step " ++ Nat.repr idx ++ "]: " ++ name ++ " . . . "

/-- The status text printed once a step has run (`timid/main.py` lines
218-220): the state's name, with `" (ignored)"` appended when the result's
ignore flag is true. -/
def statusText (r : StepResult) : String :=
  states.getD (r.state.getD 0) "" ++ (if r.ignore then " (ignored)" else "")

/-- The failure message built at `timid/main.py` lines 224-227:
`'Test step failure'`, extended with `': %s' % result.msg` when
`result.msg` is truthy (present and non-empty). -/
def failureMessage (r : StepResult) : String :=
  match r.msg with
  | some m => if m = "" then "Test step failure" else "Test step failure: " ++ m
  | none => "Test step failure"

/-- The step-execution loop of `timid()` (`timid/main.py` lines 200-231):
skipped steps print SKIPPED and continue; a truthy result prints its
status and continues; a falsy result prints its status and returns the
failure message; an exhausted list returns `None`. -/
def timidLoop : Nat → List DriverStep → List String × Option String
  | _, [] => ([], none)
  | idx, s :: rest =>
    if s.skip then
      let out := timidLoop (idx + 1) rest
      ((progressLine idx s.name ++ "SKIPPED") :: out.1, out.2)
    else if s.result.toBool then
      let out := timidLoop (idx + 1) rest
      ((progressLine idx s.name ++ statusText s.result) :: out.1, out.2)
    else
      ([progressLine idx s.name ++ statusText s.result],
       some (failureMessage s.result))

/-- C8: in the driver loop, every falsy step result (FAILURE or ERROR and
not ignored) stops the loop immediately with a failure message that
incorporates the result's message when one is present; every truthy
result (including ignored failures) lets the loop continue; a run with no
falsy result returns null. -/
theorem c8_driver_stops_on_falsy :
    (∀ (idx : Nat) (l : List DriverStep),
       (∀ s ∈ l, s.skip = true ∨ s.result.toBool = true) →
       (timidLoop idx l).2 = none) ∧
    (∀ (idx : Nat) (pre : List DriverStep) (s : DriverStep)
       (rest : List DriverStep),
       (∀ t ∈ pre, t.skip = true ∨ t.result.toBool = true) →
       s.skip = false → s.result.toBool = false →
       (timidLoop idx (pre ++ s :: rest)).2 =
         some (failureMessage s.result)) ∧
    (∀ (r : StepResult) (m : String), r.msg = some m →
       ∃ p, failureMessage r = p ++ m) := by
  refine ⟨?_, ?_, ?_⟩
  · intro idx l
    induction l generalizing idx with
    | nil => intro _; rfl
    | cons s rest ih =>
      intro h
      rcases h s (List.mem_cons_self s rest) with hs | hs
      · simp only [timidLoop, hs, if_true]
        exact ih (idx + 1) (fun t ht => h t (List.mem_cons_of_mem s ht))
      · simp only [timidLoop, hs]
        cases hsk : s.skip <;>
          simpa [hsk] using ih (idx + 1)
            (fun t ht => h t (List.mem_cons_of_mem s ht))
  · intro idx pre s rest
    induction pre generalizing idx with
    | nil =>
      intro _ hskip hfalse
      simp [timidLoop, hskip, hfalse]
    | cons t pre' ih =>
      intro h hskip hfalse
      rcases h t (List.mem_cons_self t pre') with ht | ht
      · simp only [List.cons_append, timidLoop, ht, if_true]
        exact ih (idx + 1) (fun u hu => h u (List.mem_cons_of_mem t hu))
          hskip hfalse
      · simp only [List.cons_append, timidLoop, ht]
        cases htk : t.skip <;>
          simpa [htk] using ih (idx + 1)
            (fun u hu => h u (List.mem_cons_of_mem t hu)) hskip hfalse
  · intro r m hm
    unfold failureMessage
    rw [hm]
    by_cases hme : m = ""
    · subst hme
      exact ⟨"Test step failure", by simp⟩
    · simp only [hme, if_false]
      exact ⟨"Test step failure: ", rfl⟩

/-- Witness for C8: one skipped step followed by an unignored FAILURE
with a message stops the loop with the composed message. -/
theorem c8_driver_stops_on_falsy_witness :
    (timidLoop 0
      ([⟨"a", true, StepResult.mk none none none [] (some SUCCESS) none⟩] ++
       ⟨"b", false,
        StepResult.mk (some "boom") none none [] (some FAILURE) none⟩ ::
       [⟨"c", false,
         StepResult.mk none none none [] (some SUCCESS) none⟩])).2 =
      some (failureMessage
        (StepResult.mk (some "boom") none none [] (some FAILURE) none)) ∧
    ∃ p, failureMessage
        (StepResult.mk (some "boom") none none [] (some FAILURE) none) =
      p ++ "boom" :=
  ⟨c8_driver_stops_on_falsy.2.1 0 _ _ _
     (by intro t ht
         cases ht with
         | head => exact Or.inl rfl
         | tail _ h2 => cases h2)
     rfl rfl,
   c8_driver_stops_on_falsy.2.2
     (StepResult.mk (some "boom") none none [] (some FAILURE) none) "boom"
     rfl⟩

lemma progressLine_decomp (n : Nat) (nm suffix : String) :
    (∃ a b, progressLine n nm ++ suffix = a ++ Nat.repr n ++ b) ∧
    (∃ c d, progressLine n nm ++ suffix = c ++ nm ++ d) := by
  constructor
  · refine ⟨"[Step ", "]: " ++ nm ++ " . . . " ++ suffix, ?_⟩
    simp [progressLine, String.append_assoc]
  · refine ⟨"[Step " ++ Nat.repr n ++ "]: ", " . . . " ++ suffix, ?_⟩
    simp [progressLine, String.append_assoc]

/-- C9 (amended): every per-step progress line printed by the driver loop
contains the step's 0-based `enumerate` index (the source prints `idx`,
not `idx + 1`) together with the step's display name. -/
theorem c9_progress_line_contents :
    ∀ (l : List DriverStep) (idx k : Nat) (st : DriverStep) (s : String),
      (timidLoop idx l).1[k]? = some s → l[k]? = some st →
      ∃ suffix,
        s = progressLine (idx + k) st.name ++ suffix ∧
        (∃ a b, s = a ++ Nat.repr (idx + k) ++ b) ∧
        (∃ c d, s = c ++ st.name ++ d) := by
  intro l
  induction l with
  | nil =>
    intro idx k st s hs _
    simp [timidLoop] at hs
  | cons s0 rest ih =>
    intro idx k st s hs hst
    by_cases h0 : s0.skip
    · simp only [timidLoop, h0, if_true] at hs
      cases k with
      | zero =>
        rw [List.getElem?_cons_zero] at hs hst
        injection hs with hs
        injection hst with hst
        subst hs
        subst hst
        exact ⟨"SKIPPED", by rw [Nat.add_zero],
          by rw [Nat.add_zero]
             exact (progressLine_decomp idx s0.name "SKIPPED").1,
          (progressLine_decomp idx s0.name "SKIPPED").2⟩
      | succ k' =>
        rw [List.getElem?_cons_succ] at hs hst
        have harith : idx + 1 + k' = idx + (k' + 1) := by omega
        rw [← harith]
        exact ih (idx + 1) k' st s hs hst
    · by_cases h1 : s0.result.toBool
      · have hfst : (timidLoop idx (s0 :: rest)).1 =
            (progressLine idx s0.name ++ statusText s0.result) ::
              (timidLoop (idx + 1) rest).1 := by
          rw [timidLoop, if_neg h0, if_pos h1]
        rw [hfst] at hs
        cases k with
        | zero =>
          rw [List.getElem?_cons_zero] at hs hst
          injection hs with hs
          injection hst with hst
          subst hs
          subst hst
          exact ⟨statusText s0.result, by rw [Nat.add_zero],
            by rw [Nat.add_zero]
               exact (progressLine_decomp idx s0.name
                 (statusText s0.result)).1,
            (progressLine_decomp idx s0.name (statusText s0.result)).2⟩
        | succ k' =>
          rw [List.getElem?_cons_succ] at hs hst
          have harith : idx + 1 + k' = idx + (k' + 1) := by omega
          rw [← harith]
          exact ih (idx + 1) k' st s hs hst
      · have hfst : (timidLoop idx (s0 :: rest)).1 =
            [progressLine idx s0.name ++ statusText s0.result] := by
          rw [timidLoop, if_neg h0, if_neg h1]
        rw [hfst] at hs
        cases k with
        | zero =>
          rw [List.getElem?_cons_zero] at hs hst
          injection hs with hs
          injection hst with hst
          subst hs
          subst hst
          exact ⟨statusText s0.result, by rw [Nat.add_zero],
            by rw [Nat.add_zero]
               exact (progressLine_decomp idx s0.name
                 (statusText s0.result)).1,
            (progressLine_decomp idx s0.name (statusText s0.result)).2⟩
        | succ k' =>
          rw [List.getElem?_cons_succ] at hs
          simp at hs

/-- Counterexample to C9 as stated: the first executed step has 1-based
visual index 1, yet its progress line is `"[Step 0]: x . . . SUCCESS"`,
which contains no character `1` at all — the driver prints the 0-based
`enumerate` index (the repository's own tests expect `[Step 0]`). -/
theorem c9_counterexample_zero_based_index :
    (timidLoop 0 [⟨"x", false,
        StepResult.mk none none none [] (some SUCCESS) none⟩]).1[0]? =
      some "[Step 0]: x . . . SUCCESS" ∧
    ¬ ∃ a b, "[Step 0]: x . . . SUCCESS" = a ++ "1" ++ b := by
  constructor
  · rfl
  · rintro ⟨a, b, h⟩
    have hmem : '1' ∈ "[Step 0]: x . . . SUCCESS".data := by
      rw [h, String.data_append, String.data_append]
      exact List.mem_append_left _ (List.mem_append_right _ (by decide))
    revert hmem
    decide

/-- Witness for C9 at the loop's first step. -/
theorem c9_progress_line_contents_witness :
    ∃ suffix,
      "[Step 0]: x . . . SUCCESS" = progressLine (0 + 0) "x" ++ suffix ∧
      (∃ a b, "[Step 0]: x . . . SUCCESS" = a ++ Nat.repr (0 + 0) ++ b) ∧
      (∃ c d, "[Step 0]: x . . . SUCCESS" = c ++ "x" ++ d) :=
  c9_progress_line_contents
    [⟨"x", false, StepResult.mk none none none [] (some SUCCESS) none⟩]
    0 0
    ⟨"x", false, StepResult.mk none none none [] (some SUCCESS) none⟩
    "[Step 0]: x . . . SUCCESS" rfl rfl

/-! ## Step parsing (`timid/steps.py` lines 411-531, `timid/utils.py`
lines 319-336)

The plugin registry (`timid.entry.points`) is modelled as explicit
association lists from names to classes.  Configuration values are an
inert YAML-like datatype; the only structural inspection the parsing
algorithm itself performs is the reserved-field string-schema check.
Modifier and action constructors (which validate their own configuration
and may raise `ConfigError`) are carried as `Except`-valued functions,
and a modifier instance's `action_conf` hook as a rewriting function: the
context, name and address arguments the source passes to them are fixed
per call site and are absorbed into those functions. -/

/-- A YAML-ish configuration value. -/
inductive Conf where
  | null
  | str (s : String)
  | num (n : Int)
  | boolean (b : Bool)
  | list (xs : List Conf)
  | dict (kvs : List (String × Conf))

/-- `ConfigError` (`timid/steps.py` lines 39-61): carries the message. -/
structure ConfigError where
  msg : String

/-- `ConfigError.__init__` appends `' (%s)' % step_addr` to the message
when a step address is given. -/
def mkConfigError (msg : String) (step_addr : Option String) : ConfigError :=
  ⟨msg ++ match step_addr with
          | some a => " (" ++ a ++ ")"
          | none => ""⟩

/-- `Modifier.NORMAL` (`timid/steps.py` line 199). -/
def NORMAL : Nat := 1

/-- `Modifier.STEP` (`timid/steps.py` line 203). -/
def STEP : Nat := 2

/-- `Modifier.UNRESTRICTED = NORMAL | STEP` (`timid/steps.py` line 207). -/
def UNRESTRICTED : Nat := 3

/-- A constructed modifier object, as used during parsing: only its
`action_conf` hook matters there. -/
structure ModifierObj where
  action_conf : Conf → Conf

/-- A modifier class in the registry: class attributes `priority` and
`restriction`, and the constructor (`StepPart.__init__`, which validates
the modifier's own configuration and may raise `ConfigError`). -/
structure ModifierClass where
  priority : Int
  restriction : Nat
  init : Conf → Except ConfigError ModifierObj

/-- A constructed action object; `config` is the configuration it stored
(`StepPart.__init__`). -/
structure ActionObj where
  config : Conf

/-- An action class in the registry: the `step_action` class attribute
and the constructor. -/
structure ActionClass where
  step_action : Bool
  init : Conf → Except ConfigError ActionObj

/-- The plugin registry (`timid.entry.points`), restricted to the two
namespaces the step parser consults. -/
structure Registry where
  actions : List (String × ActionClass)
  modifiers : List (String × ModifierClass)

/-- `StepItem` (`timid/steps.py` lines 310-339) carrying an action class;
the source uses one dynamically typed class for both roles. -/
structure ActionItem where
  cls : ActionClass
  name : String
  conf : Conf

/-- `StepItem` carrying a modifier class. -/
structure ModItem where
  cls : ModifierClass
  name : String
  conf : Conf

/-- The reserved metadata keys of `Step.schemas` (`timid/steps.py` lines
347-350); both are schema-validated as strings. -/
def schemaKeys : List String := ["name", "description"]

/-- The accumulator of the key-classification loop (`timid/steps.py`
lines 436-479): `action_item`, the priority dictionary `mod_items`
(insertion-ordered keys, each bucket in encounter order, as built by
`setdefault`/`append`), and the reserved-field kwargs. -/
structure ParseState where
  action_item : Option ActionItem
  mod_items : List (Int × List ModItem)
  name_kw : Option Conf
  description_kw : Option Conf

/-- `mod_items.setdefault(priority, []); mod_items[priority].append(item)`
(`timid/steps.py` lines 469-471) on an insertion-ordered dictionary. -/
def prioInsert (d : List (Int × List ModItem)) (p : Int) (x : ModItem) :
    List (Int × List ModItem) :=
  match d with
  | [] => [(p, [x])]
  | (q, xs) :: rest =>
    if q = p then (q, xs ++ [x]) :: rest
    else (q, xs) :: prioInsert rest p x

/-- Stable insertion of one dictionary entry by ascending key: an entry
is placed after every entry whose key is less than or equal to its own. -/
def insertPairByPrio (x : Int × List ModItem) :
    List (Int × List ModItem) → List (Int × List ModItem)
  | [] => [x]
  | y :: ys => if x.1 < y.1 then x :: y :: ys else y :: insertPairByPrio x ys

/-- `sorted(prio_dict.items(), key=lambda x: x[0])` modelled as a stable
insertion sort by key. -/
def sortPairsByPrio (d : List (Int × List ModItem)) :
    List (Int × List ModItem) :=
  d.foldl (fun acc x => insertPairByPrio x acc) []

/-- `utils.iter_prio_dict` (`timid/utils.py` lines 319-336): iterate the
buckets in ascending key order, yielding each bucket's items in turn. -/
def iter_prio_dict (d : List (Int × List ModItem)) : List ModItem :=
  ((sortPairsByPrio d).map (·.2)).flatten

/-- One iteration of the key-classification loop (`timid/steps.py` lines
441-479): reserved keys are validated as strings and stored as kwargs;
keys naming a registered action become the action item (a second one is a
`ConfigError` naming both); keys naming a registered modifier are
appended to their priority bucket; anything else is a `ConfigError`. -/
def classifyKey (reg : Registry) (step_addr : Option String)
    (st : ParseState) (key : String) (key_conf : Conf) :
    Except ConfigError ParseState :=
  if schemaKeys.contains key then
    match key_conf with
    | .str _ =>
      .ok (if key = "name" then { st with name_kw := some key_conf }
           else { st with description_kw := some key_conf })
    | _ =>
      .error (mkConfigError ("Failed to validate \"" ++ key ++ "\"")
        step_addr)
  else
    match reg.actions.lookup key with
    | some acls =>
      match st.action_item with
      | some prev =>
        .error (mkConfigError
          ("Bad step configuration: action \"" ++ key ++
           "\" specified, but action \"" ++ prev.name ++
           "\" already processed") step_addr)
      | none => .ok { st with action_item := some ⟨acls, key, key_conf⟩ }
    | none =>
      match reg.modifiers.lookup key with
      | some mcls =>
        .ok { st with
          mod_items := prioInsert st.mod_items mcls.priority
            ⟨mcls, key, key_conf⟩ }
      | none =>
        .error (mkConfigError
          ("Bad step configuration: unable to resolve action \"" ++
           key ++ "\"") step_addr)

/-- The classification loop over the step configuration's key/value
pairs. -/
def classifyKeys (reg : Registry) (step_addr : Option String) :
    ParseState → List (String × Conf) → Except ConfigError ParseState
  | st, [] => .ok st
  | st, (k, v) :: rest =>
    match classifyKey reg step_addr st k v with
    | .error e => .error e
    | .ok st' => classifyKeys reg step_addr st' rest

/-- The modifier walk (`timid/steps.py` lines 494-515): for each pending
modifier in priority order, check the restriction mask against the
action's category, construct the modifier, and let its `action_conf`
rewrite the action configuration for the next modifier. -/
def modifierWalk (step_addr : Option String) (action_type : Nat)
    (action_name : String) :
    List ModItem → Conf → Except ConfigError (List ModifierObj × Conf)
  | [], conf => .ok ([], conf)
  | mi :: rest, conf =>
    if mi.cls.restriction &&& action_type = 0 then
      .error (mkConfigError
        ("Bad step configuration: modifier \"" ++ mi.name ++
         "\" is incompatible with the action \"" ++ action_name ++ "\"")
        step_addr)
    else
      match mi.cls.init mi.conf with
      | .error e => .error e
      | .ok mobj =>
        match modifierWalk step_addr action_type action_name rest
            (mobj.action_conf conf) with
        | .error e => .error e
        | .ok (mods, conf') => .ok (mobj :: mods, conf')

/-- The outcome of `Step.parse_step` at the point of Step construction
(`timid/steps.py` line 521): the constructed action together with the
configuration it was constructed from, the ordered modifier objects, the
reserved-field kwargs and the step-action flag (when true, the source
additionally invokes the fresh Step at once, lines 527-528). -/
structure ParsedStep where
  action : ActionObj
  actionName : String
  actionConf : Conf
  modifiers : List ModifierObj
  name_kw : Option Conf
  description_kw : Option Conf
  isStepAction : Bool

/-- A raw step configuration: a bare scalar string, a mapping, or
anything else (which fails to parse). -/
inductive RawStepConf where
  | scalar (s : String)
  | mapping (kvs : List (String × Conf))
  | other

/-- The empty classification state the parse starts from
(`timid/steps.py` lines 438-440). -/
def initState : ParseState := ⟨none, [], none, none⟩

/-- `Step.parse_step` (`timid/steps.py` lines 411-531).  A scalar string
`s` is normalised to `{s: None}` (line 428); a non-mapping is a
`ConfigError` (lines 429-434); then the keys are classified, a missing
action is a `ConfigError` (lines 481-486), the modifiers are walked in
priority order rewriting the action configuration (lines 488-515), and
finally the action is constructed with the rewritten configuration (line
518). -/
def parse_step_mapping (reg : Registry) (step_addr : Option String)
    (kvs : List (String × Conf)) : Except ConfigError ParsedStep :=
  match classifyKeys reg step_addr initState kvs with
    | .error e => .error e
    | .ok st =>
      match st.action_item with
      | none =>
        .error (mkConfigError "Bad step configuration: no action specified"
          step_addr)
      | some ai =>
        match modifierWalk step_addr
            (if ai.cls.step_action then STEP else NORMAL) ai.name
            (iter_prio_dict st.mod_items) ai.conf with
        | .error e => .error e
        | .ok (mods, final_conf) =>
          match ai.cls.init final_conf with
          | .error e => .error e
          | .ok aobj =>
            .ok ⟨aobj, ai.name, final_conf, mods, st.name_kw,
                 st.description_kw, ai.cls.step_action⟩

/-- The dispatch on the raw configuration's shape (`timid/steps.py`
lines 425-434). -/
def parse_step (reg : Registry) (step_addr : Option String) :
    RawStepConf → Except ConfigError ParsedStep
  | .scalar s => parse_step_mapping reg step_addr [(s, Conf.null)]
  | .mapping kvs => parse_step_mapping reg step_addr kvs
  | .other =>
    .error (mkConfigError
      ("Unable to parse step configuration: expecting string or " ++
       "dictionary") step_addr)

/-- A key counts as an action key when it is not reserved and names a
registered action (the classification order of `classifyKey`). -/
def isActionKey (reg : Registry) (k : String) : Bool :=
  !schemaKeys.contains k && (reg.actions.lookup k).isSome

/-- The number of action keys in a step configuration. -/
def actionKeyCount (reg : Registry) (conf : List (String × Conf)) : Nat :=
  (conf.filter (fun kv => isActionKey reg kv.1)).length

/-- The modifier items of a configuration in encounter order, as
classified by `classifyKey`. -/
def modItemsOf (reg : Registry) (conf : List (String × Conf)) :
    List ModItem :=
  conf.filterMap (fun kv =>
    if schemaKeys.contains kv.1 then none
    else
      match reg.actions.lookup kv.1 with
      | some _ => none
      | none =>
        match reg.modifiers.lookup kv.1 with
        | some mcls => some ⟨mcls, kv.1, kv.2⟩
        | none => none)

/-- The priority dictionary built from an encounter-ordered item list. -/
def buildPrioDict (d0 : List (Int × List ModItem)) (items : List ModItem) :
    List (Int × List ModItem) :=
  items.foldl (fun d mi => prioInsert d mi.cls.priority mi) d0

lemma actionKeyCount_cons (reg : Registry) (k : String) (v : Conf)
    (rest : List (String × Conf)) :
    actionKeyCount reg ((k, v) :: rest) =
      (if isActionKey reg k then 1 else 0) + actionKeyCount reg rest := by
  by_cases h : isActionKey reg k = true
  · simp [actionKeyCount, List.filter_cons, h, Nat.add_comm]
  · simp only [Bool.not_eq_true] at h
    simp [actionKeyCount, List.filter_cons, h]

lemma classifyKey_nonaction {reg : Registry} {addr : Option String}
    {st st' : ParseState} {k : String} {v : Conf}
    (hk : isActionKey reg k = false)
    (h : classifyKey reg addr st k v = .ok st') :
    st'.action_item = st.action_item := by
  unfold classifyKey at h
  by_cases hc : schemaKeys.contains k = true
  · rw [if_pos hc] at h
    cases v with
    | str s =>
      injection h with h
      subst h
      by_cases hn : k = "name" <;> simp [hn]
    | null => cases h
    | num n => cases h
    | boolean b => cases h
    | list xs => cases h
    | dict kvs => cases h
  · rw [if_neg hc] at h
    cases hlk : reg.actions.lookup k with
    | some acls =>
      exfalso
      rw [isActionKey, hlk] at hk
      simp [Bool.not_eq_true] at hk hc
      simp [hc] at hk
    | none =>
      rw [hlk] at h
      cases hmk : reg.modifiers.lookup k with
      | some mcls =>
        rw [hmk] at h
        injection h with h
        subst h
        rfl
      | none =>
        rw [hmk] at h
        cases h

lemma isActionKey_true {reg : Registry} {k : String}
    (h : isActionKey reg k = true) :
    schemaKeys.contains k = false ∧
      ∃ acls, reg.actions.lookup k = some acls := by
  unfold isActionKey at h
  cases hcc : schemaKeys.contains k with
  | true => rw [hcc] at h; simp at h
  | false =>
    refine ⟨rfl, ?_⟩
    rw [hcc] at h
    simp only [Bool.not_false, Bool.true_and] at h
    exact Option.isSome_iff_exists.mp h

lemma classifyKey_action_dup {reg : Registry} {addr : Option String}
    {st : ParseState} {k : String} {v : Conf} {ai : ActionItem}
    (hk : isActionKey reg k = true) (hsome : st.action_item = some ai) :
    classifyKey reg addr st k v =
      .error (mkConfigError
        ("Bad step configuration: action \"" ++ k ++
         "\" specified, but action \"" ++ ai.name ++
         "\" already processed") addr) := by
  obtain ⟨hc, acls, hlk⟩ := isActionKey_true hk
  unfold classifyKey
  rw [if_neg (by rw [hc]; simp), hlk, hsome]

lemma classifyKey_action_new {reg : Registry} {addr : Option String}
    {st : ParseState} {k : String} {v : Conf}
    (hk : isActionKey reg k = true) (hnone : st.action_item = none) :
    ∃ acls, reg.actions.lookup k = some acls ∧
      classifyKey reg addr st k v =
        .ok { st with action_item := some ⟨acls, k, v⟩ } := by
  obtain ⟨hc, acls, hlk⟩ := isActionKey_true hk
  refine ⟨acls, hlk, ?_⟩
  unfold classifyKey
  rw [if_neg (by rw [hc]; simp), hlk, hnone]

lemma classifyKeys_append {reg : Registry} {addr : Option String} :
    ∀ (l1 l2 : List (String × Conf)) (st st' : ParseState),
      classifyKeys reg addr st l1 = .ok st' →
      classifyKeys reg addr st (l1 ++ l2) = classifyKeys reg addr st' l2
  | [], l2, st, st', h => by
    injection h with h
    subst h
    rfl
  | (k, v) :: rest, l2, st, st', h => by
    rw [classifyKeys] at h
    rw [List.cons_append, classifyKeys]
    cases hck : classifyKey reg addr st k v with
    | error e => rw [hck] at h; cases h
    | ok st'' =>
      rw [hck] at h
      exact classifyKeys_append rest l2 st'' st' h

lemma classifyKeys_dup_error {reg : Registry} {addr : Option String} :
    ∀ (conf : List (String × Conf)) (st : ParseState) (ai : ActionItem),
      st.action_item = some ai → 1 ≤ actionKeyCount reg conf →
      ∃ e, classifyKeys reg addr st conf = .error e
  | [], st, ai, _, hcount => by simp [actionKeyCount] at hcount
  | (k, v) :: rest, st, ai, hsome, hcount => by
    by_cases ha : isActionKey reg k = true
    · refine ⟨mkConfigError
        ("Bad step configuration: action \"" ++ k ++
         "\" specified, but action \"" ++ ai.name ++
         "\" already processed") addr, ?_⟩
      rw [classifyKeys, classifyKey_action_dup ha hsome]
    · rw [Bool.not_eq_true] at ha
      have hcount' : 1 ≤ actionKeyCount reg rest := by
        rw [actionKeyCount_cons, ha] at hcount
        simpa using hcount
      rw [classifyKeys]
      cases hck : classifyKey reg addr st k v with
      | error e => exact ⟨e, rfl⟩
      | ok st'' =>
        have hpres := classifyKey_nonaction ha hck
        exact classifyKeys_dup_error rest st'' ai (hpres.trans hsome) hcount'

lemma classifyKeys_no_action {reg : Registry} {addr : Option String} :
    ∀ (conf : List (String × Conf)) (st st' : ParseState),
      classifyKeys reg addr st conf = .ok st' →
      actionKeyCount reg conf = 0 → st'.action_item = st.action_item
  | [], st, st', h, _ => by
    injection h with h
    subst h
    rfl
  | (k, v) :: rest, st, st', h, hcount => by
    have ha : isActionKey reg k = false := by
      rw [actionKeyCount_cons] at hcount
      by_contra hc
      rw [Bool.not_eq_false] at hc
      rw [hc] at hcount
      simp at hcount
    have hcount' : actionKeyCount reg rest = 0 := by
      rw [actionKeyCount_cons, ha] at hcount
      simpa using hcount
    rw [classifyKeys] at h
    cases hck : classifyKey reg addr st k v with
    | error e => rw [hck] at h; cases h
    | ok st'' =>
      rw [hck] at h
      exact (classifyKeys_no_action rest st'' st' h hcount').trans
        (classifyKey_nonaction ha hck)

lemma classifyKeys_two_error {reg : Registry} {addr : Option String} :
    ∀ (conf : List (String × Conf)) (st : ParseState),
      2 ≤ actionKeyCount reg conf →
      ∃ e, classifyKeys reg addr st conf = .error e
  | [], st, hcount => by simp [actionKeyCount] at hcount
  | (k, v) :: rest, st, hcount => by
    by_cases ha : isActionKey reg k = true
    · cases hact : st.action_item with
      | some ai =>
        refine ⟨mkConfigError
          ("Bad step configuration: action \"" ++ k ++
           "\" specified, but action \"" ++ ai.name ++
           "\" already processed") addr, ?_⟩
        rw [classifyKeys, classifyKey_action_dup ha hact]
      | none =>
        have hnew : ∃ acls, reg.actions.lookup k = some acls ∧
            classifyKey reg addr st k v =
              .ok { st with action_item := some ⟨acls, k, v⟩ } :=
          classifyKey_action_new ha hact
        obtain ⟨acls, _, hck⟩ := hnew
        have hcount' : 1 ≤ actionKeyCount reg rest := by
          rw [actionKeyCount_cons, ha] at hcount
          simp at hcount
          omega
        obtain ⟨e, he⟩ := classifyKeys_dup_error rest
          { st with action_item := some ⟨acls, k, v⟩ } ⟨acls, k, v⟩
          rfl hcount'
        refine ⟨e, ?_⟩
        rw [classifyKeys, hck]
        exact he
    · rw [Bool.not_eq_true] at ha
      have hcount' : 2 ≤ actionKeyCount reg rest := by
        rw [actionKeyCount_cons, ha] at hcount
        simpa using hcount
      rw [classifyKeys]
      cases hck : classifyKey reg addr st k v with
      | error e => exact ⟨e, rfl⟩
      | ok st'' => exact classifyKeys_two_error rest st'' hcount'

/-- C5: resolving a step configuration succeeds only when exactly one key
names a registered action; two or more action keys fail with
`ConfigError` (and, when the scan reaches the second action key, the
error names both actions); no action key fails with `ConfigError`. -/
theorem c5_exactly_one_action (reg : Registry) (addr : Option String) :
    (∀ (conf : List (String × Conf)), 2 ≤ actionKeyCount reg conf →
       ∃ e, parse_step reg addr (.mapping conf) = .error e) ∧
    (∀ (conf : List (String × Conf)), actionKeyCount reg conf = 0 →
       ∃ e, parse_step reg addr (.mapping conf) = .error e) ∧
    (∀ (conf : List (String × Conf)) (ps : ParsedStep),
       parse_step reg addr (.mapping conf) = .ok ps →
       actionKeyCount reg conf = 1) ∧
    (∀ (pre rest : List (String × Conf)) (k2 : String) (c2 : Conf)
       (st : ParseState) (ai : ActionItem),
       classifyKeys reg addr initState pre = .ok st →
       st.action_item = some ai → isActionKey reg k2 = true →
       parse_step reg addr (.mapping (pre ++ (k2, c2) :: rest)) =
         .error (mkConfigError
           ("Bad step configuration: action \"" ++ k2 ++
            "\" specified, but action \"" ++ ai.name ++
            "\" already processed") addr)) := by
  refine ⟨?_, ?_, ?_, ?_⟩
  · intro conf hcount
    have hle : ∃ e, classifyKeys reg addr initState conf = .error e :=
      classifyKeys_two_error conf initState hcount
    obtain ⟨e, he⟩ := hle
    refine ⟨e, ?_⟩
    rw [parse_step, parse_step_mapping, he]
  · intro conf hcount
    cases hck : classifyKeys reg addr initState conf with
    | error e =>
      refine ⟨e, ?_⟩
      rw [parse_step, parse_step_mapping, hck]
    | ok st =>
      have hact : st.action_item = none := by
        rw [classifyKeys_no_action conf initState st hck hcount]
        rfl
      refine ⟨mkConfigError "Bad step configuration: no action specified"
        addr, ?_⟩
      simp only [parse_step, parse_step_mapping, hck, hact]
  · intro conf ps h
    rw [parse_step, parse_step_mapping] at h
    cases hck : classifyKeys reg addr initState conf with
    | error e =>
      rw [hck] at h
      exact Except.noConfusion h
    | ok st =>
      cases hact : st.action_item with
      | none =>
        simp only [hck, hact] at h
        exact Except.noConfusion h
      | some ai =>
        have h1 : actionKeyCount reg conf ≠ 0 := by
          intro h0
          rw [classifyKeys_no_action conf initState st hck h0] at hact
          exact Option.noConfusion hact
        have h2 : ¬ 2 ≤ actionKeyCount reg conf := by
          intro h2'
          have hle : ∃ e, classifyKeys reg addr initState conf = .error e :=
            classifyKeys_two_error conf initState h2'
          obtain ⟨e, he⟩ := hle
          rw [he] at hck
          exact Except.noConfusion hck
        omega
  · intro pre rest k2 c2 st ai hpre hact hk2
    rw [parse_step, parse_step_mapping,
      classifyKeys_append pre ((k2, c2) :: rest) initState st hpre,
      classifyKeys, classifyKey_action_dup hk2 hact]

/-! Ordering lemmas for the priority dictionary and `iter_prio_dict`. -/

/-- The contents of the key-`p` buckets of a priority dictionary. -/
def bucket (p : Int) : List (Int × List ModItem) → List ModItem
  | [] => []
  | (q, xs) :: rest => if q == p then xs ++ bucket p rest else bucket p rest

lemma bucket_eq_filter (p : Int) :
    ∀ (d : List (Int × List ModItem)),
      bucket p d = ((d.filter (fun kv => kv.1 == p)).map (·.2)).flatten
  | [] => rfl
  | (q, xs) :: rest => by
    rw [bucket, List.filter_cons]
    cases hq : q == p with
    | true => simp [hq, bucket_eq_filter p rest]
    | false => simp [hq, bucket_eq_filter p rest]

/-- Every item in a bucket carries the bucket's key as its priority. -/
def goodDict (d : List (Int × List ModItem)) : Prop :=
  ∀ kv ∈ d, ∀ x ∈ kv.2, x.cls.priority = kv.1

lemma prioInsert_keys (p : Int) (x : ModItem) :
    ∀ (d : List (Int × List ModItem)),
      (prioInsert d p x).map (·.1) =
        if p ∈ d.map (·.1) then d.map (·.1) else d.map (·.1) ++ [p]
  | [] => by simp [prioInsert]
  | (q, xs) :: rest => by
    by_cases hq : q = p
    · subst hq
      simp [prioInsert]
    · rw [prioInsert]
      rw [if_neg hq]
      have ih := prioInsert_keys p x rest
      by_cases hp : p ∈ rest.map (·.1)
      · rw [if_pos hp] at ih
        simp only [List.map_cons, ih]
        rw [if_pos (by simp [hp])]
      · rw [if_neg hp] at ih
        simp only [List.map_cons, ih]
        rw [if_neg (by simp [hp, Ne.symm hq])]
        simp

lemma prioInsert_nodup {d : List (Int × List ModItem)} {p : Int}
    {x : ModItem} (h : (d.map (·.1)).Nodup) :
    ((prioInsert d p x).map (·.1)).Nodup := by
  rw [prioInsert_keys]
  by_cases hp : p ∈ d.map (·.1)
  · rwa [if_pos hp]
  · rw [if_neg hp]
    simp [List.nodup_append, h, hp]

lemma bucket_not_mem {p : Int} :
    ∀ {d : List (Int × List ModItem)}, p ∉ d.map (·.1) → bucket p d = []
  | [], _ => rfl
  | (q, xs) :: rest, h => by
    have hq : (q == p) = false := by
      have : q ≠ p := fun hh => h (by simp [hh])
      simpa using this
    have hrest : p ∉ rest.map (·.1) := fun hh => h (by simp [hh])
    simp only [bucket, hq, Bool.false_eq_true, if_false]
    exact bucket_not_mem hrest

lemma bucket_prioInsert {p q : Int} {x : ModItem} :
    ∀ {d : List (Int × List ModItem)}, (d.map (·.1)).Nodup →
      bucket p (prioInsert d q x) =
        if q == p then bucket p d ++ [x] else bucket p d
  | [], _ => by
    cases hq : q == p <;> simp [prioInsert, bucket, hq]
  | (a, xs) :: rest, hnd => by
    have hnd2 : (a :: rest.map (·.1)).Nodup := by simpa using hnd
    have hnd' : (rest.map (·.1)).Nodup := (List.nodup_cons.mp hnd2).2
    have hamem : a ∉ rest.map (·.1) := (List.nodup_cons.mp hnd2).1
    by_cases haq : a = q
    · rw [prioInsert, if_pos haq]
      cases hap : a == p with
      | true =>
        have hqp : (q == p) = true := by rw [← haq]; exact hap
        have hp : a = p := by simpa using hap
        have hrest : bucket p rest = [] :=
          bucket_not_mem (by rw [← hp]; exact hamem)
        simp only [bucket, hap, hqp, if_true, hrest]
        simp
      | false =>
        have hqp : (q == p) = false := by rw [← haq]; exact hap
        simp only [bucket, hap, hqp, Bool.false_eq_true, if_false]
    · rw [prioInsert, if_neg haq]
      have ihr := bucket_prioInsert (p := p) (q := q) (x := x) hnd'
      cases hap : a == p with
      | true =>
        cases hqp : q == p with
        | true =>
          rw [hqp, if_pos rfl] at ihr
          simp only [bucket, hap, hqp, if_true, ihr]
          simp [List.append_assoc]
        | false =>
          rw [hqp] at ihr
          simp only [Bool.false_eq_true, if_false] at ihr
          simp only [bucket, hap, hqp, if_true, Bool.false_eq_true,
            if_false, ihr]
      | false =>
        cases hqp : q == p with
        | true =>
          rw [hqp, if_pos rfl] at ihr
          simp only [bucket, hap, hqp, if_true, Bool.false_eq_true,
            if_false, ihr]
        | false =>
          rw [hqp] at ihr
          simp only [Bool.false_eq_true, if_false] at ihr
          simp only [bucket, hap, hqp, Bool.false_eq_true, if_false, ihr]

lemma buildPrioDict_cons (d0 : List (Int × List ModItem)) (mi : ModItem)
    (l : List ModItem) :
    buildPrioDict d0 (mi :: l) =
      buildPrioDict (prioInsert d0 mi.cls.priority mi) l := rfl

lemma bucket_buildPrioDict (p : Int) :
    ∀ (l : List ModItem) (d0 : List (Int × List ModItem)),
      (d0.map (·.1)).Nodup →
      bucket p (buildPrioDict d0 l) =
        bucket p d0 ++ l.filter (fun mi => mi.cls.priority == p)
  | [], d0, _ => by simp [buildPrioDict]
  | mi :: l, d0, hnd => by
    rw [buildPrioDict_cons,
      bucket_buildPrioDict p l _ (prioInsert_nodup hnd),
      bucket_prioInsert hnd, List.filter_cons]
    by_cases hmp : mi.cls.priority = p
    · have ht : (mi.cls.priority == p) = true := by simpa using hmp
      rw [ht]
      simp
    · have hf : (mi.cls.priority == p) = false := by simpa using hmp
      rw [hf]
      simp

lemma buildPrioDict_nodup {d0 : List (Int × List ModItem)} :
    ∀ {l : List ModItem}, ((d0).map (·.1)).Nodup →
      ((buildPrioDict d0 l).map (·.1)).Nodup := by
  intro l
  induction l generalizing d0 with
  | nil => intro h; exact h
  | cons mi l ih =>
    intro h
    rw [buildPrioDict_cons]
    exact ih (prioInsert_nodup h)

lemma goodDict_prioInsert {d : List (Int × List ModItem)} {q : Int}
    {x : ModItem} (hg : goodDict d) (hx : x.cls.priority = q) :
    goodDict (prioInsert d q x) := by
  induction d with
  | nil =>
    intro kv hkv y hy
    simp [prioInsert] at hkv
    subst hkv
    simp at hy
    subst hy
    exact hx
  | cons kv0 rest ih =>
    obtain ⟨a, xs⟩ := kv0
    by_cases haq : a = q
    · subst haq
      rw [prioInsert, if_pos rfl]
      intro kv hkv y hy
      rcases List.mem_cons.mp hkv with hkv | hkv
      · subst hkv
        simp only at hy
        rcases List.mem_append.mp hy with hy | hy
        · exact hg (a, xs) (List.mem_cons_self _ _) y hy
        · simp at hy
          subst hy
          exact hx
      · exact hg kv (List.mem_cons_of_mem _ hkv) y hy
    · rw [prioInsert, if_neg haq]
      intro kv hkv y hy
      rcases List.mem_cons.mp hkv with hkv | hkv
      · subst hkv
        exact hg (a, xs) (List.mem_cons_self _ _) y hy
      · exact ih (fun kv' hkv' => hg kv' (List.mem_cons_of_mem _ hkv'))
          kv hkv y hy

lemma goodDict_buildPrioDict :
    ∀ (l : List ModItem) (d0 : List (Int × List ModItem)),
      goodDict d0 → goodDict (buildPrioDict d0 l)
  | [], d0, hg => hg
  | mi :: l, d0, hg => by
    rw [buildPrioDict_cons]
    exact goodDict_buildPrioDict l _ (goodDict_prioInsert hg rfl)

lemma mem_insertPairByPrio {x kv : Int × List ModItem} :
    ∀ {s : List (Int × List ModItem)},
      kv ∈ insertPairByPrio x s → kv = x ∨ kv ∈ s
  | [], h => by
    simp [insertPairByPrio] at h
    exact Or.inl h
  | y :: ys, h => by
    rw [insertPairByPrio] at h
    by_cases hlt : x.1 < y.1
    · rw [if_pos hlt] at h
      rcases List.mem_cons.mp h with h | h
      · exact Or.inl h
      · exact Or.inr h
    · rw [if_neg hlt] at h
      rcases List.mem_cons.mp h with h | h
      · exact Or.inr (h ▸ List.mem_cons_self _ _)
      · rcases mem_insertPairByPrio h with h | h
        · exact Or.inl h
        · exact Or.inr (List.mem_cons_of_mem _ h)

lemma insertPairByPrio_sorted {x : Int × List ModItem} :
    ∀ {s : List (Int × List ModItem)},
      s.Pairwise (fun a b => a.1 ≤ b.1) →
      (insertPairByPrio x s).Pairwise (fun a b => a.1 ≤ b.1)
  | [], _ => by simp [insertPairByPrio]
  | y :: ys, hs => by
    obtain ⟨hy, hys⟩ := List.pairwise_cons.mp hs
    rw [insertPairByPrio]
    by_cases hlt : x.1 < y.1
    · rw [if_pos hlt]
      refine List.pairwise_cons.mpr ⟨?_, hs⟩
      intro z hz
      rcases List.mem_cons.mp hz with hz | hz
      · exact le_of_lt (hz ▸ hlt)
      · exact le_trans (le_of_lt hlt) (hy z hz)
    · rw [if_neg hlt]
      refine List.pairwise_cons.mpr ⟨?_, insertPairByPrio_sorted hys⟩
      intro z hz
      rcases mem_insertPairByPrio hz with hz | hz
      · exact hz ▸ le_of_not_lt hlt
      · exact hy z hz

lemma sortPairsByPrio_sorted_aux :
    ∀ (d acc : List (Int × List ModItem)),
      acc.Pairwise (fun a b => a.1 ≤ b.1) →
      (d.foldl (fun a x => insertPairByPrio x a) acc).Pairwise
        (fun a b => a.1 ≤ b.1)
  | [], acc, h => h
  | x :: d, acc, h =>
    sortPairsByPrio_sorted_aux d _ (insertPairByPrio_sorted h)

lemma sortPairsByPrio_sorted (d : List (Int × List ModItem)) :
    (sortPairsByPrio d).Pairwise (fun a b => a.1 ≤ b.1) :=
  sortPairsByPrio_sorted_aux d [] (List.Pairwise.nil)

lemma filter_sorted_high {p : Int} :
    ∀ {s : List (Int × List ModItem)}, (∀ z ∈ s, p < z.1) →
      s.filter (fun kv => kv.1 == p) = []
  | [], _ => rfl
  | y :: ys, h => by
    have hy : (y.1 == p) = false := by
      have := h y (List.mem_cons_self _ _)
      simp only [beq_eq_false_iff_ne, ne_eq]
      omega
    rw [List.filter_cons, hy]
    simp only [Bool.false_eq_true, if_false]
    exact filter_sorted_high (fun z hz => h z (List.mem_cons_of_mem _ hz))

lemma filter_insertPairByPrio {p : Int} {x : Int × List ModItem} :
    ∀ {s : List (Int × List ModItem)},
      s.Pairwise (fun a b => a.1 ≤ b.1) →
      (insertPairByPrio x s).filter (fun kv => kv.1 == p) =
        if x.1 == p then s.filter (fun kv => kv.1 == p) ++ [x]
        else s.filter (fun kv => kv.1 == p)
  | [], _ => by
    cases hx : x.1 == p <;> simp [insertPairByPrio, hx]
  | y :: ys, hs => by
    obtain ⟨hy, hys⟩ := List.pairwise_cons.mp hs
    rw [insertPairByPrio]
    by_cases hlt : x.1 < y.1
    · rw [if_pos hlt]
      by_cases hxp : x.1 = p
      · have hrest : (y :: ys).filter (fun kv => kv.1 == p) = [] := by
          refine filter_sorted_high ?_
          intro z hz
          rcases List.mem_cons.mp hz with hz | hz
          · subst hz
            omega
          · have := hy z hz
            omega
        simp [List.filter_cons, hxp, hrest]
      · simp [List.filter_cons, hxp]
    · rw [if_neg hlt]
      have ihr := filter_insertPairByPrio (p := p) (x := x) hys
      by_cases hyp : y.1 = p <;> by_cases hxp : x.1 = p <;>
        simp [List.filter_cons, hyp, hxp, ihr] at ihr ⊢ <;>
        simp [ihr]

lemma filter_sortPairsByPrio_aux (p : Int) :
    ∀ (d acc : List (Int × List ModItem)),
      acc.Pairwise (fun a b => a.1 ≤ b.1) →
      (d.foldl (fun a x => insertPairByPrio x a) acc).filter
          (fun kv => kv.1 == p) =
        acc.filter (fun kv => kv.1 == p) ++
          d.filter (fun kv => kv.1 == p)
  | [], acc, _ => by simp
  | x :: d, acc, h => by
    rw [List.foldl_cons,
      filter_sortPairsByPrio_aux p d _ (insertPairByPrio_sorted h),
      filter_insertPairByPrio h, List.filter_cons]
    cases hx : x.1 == p with
    | true => simp [List.append_assoc]
    | false => simp

lemma filter_sortPairsByPrio (p : Int) (d : List (Int × List ModItem)) :
    (sortPairsByPrio d).filter (fun kv => kv.1 == p) =
      d.filter (fun kv => kv.1 == p) := by
  have := filter_sortPairsByPrio_aux p d [] List.Pairwise.nil
  simpa [sortPairsByPrio] using this

lemma mem_sortPairsByPrio_aux {kv : Int × List ModItem} :
    ∀ {d acc : List (Int × List ModItem)},
      kv ∈ d.foldl (fun a x => insertPairByPrio x a) acc →
      kv ∈ acc ∨ kv ∈ d
  | [], acc, h => Or.inl h
  | x :: d, acc, h => by
    rw [List.foldl_cons] at h
    rcases mem_sortPairsByPrio_aux h with h | h
    · rcases mem_insertPairByPrio h with h | h
      · exact Or.inr (h ▸ List.mem_cons_self _ _)
      · exact Or.inl h
    · exact Or.inr (List.mem_cons_of_mem _ h)

lemma mem_sortPairsByPrio {kv : Int × List ModItem}
    {d : List (Int × List ModItem)} (h : kv ∈ sortPairsByPrio d) :
    kv ∈ d := by
  rcases mem_sortPairsByPrio_aux h with h | h
  · cases h
  · exact h

lemma flatten_filter_bucket (p : Int) :
    ∀ (s : List (Int × List ModItem)),
      (∀ kv ∈ s, ∀ x ∈ kv.2, x.cls.priority = kv.1) →
      ((s.map (·.2)).flatten).filter (fun mi => mi.cls.priority == p) =
        bucket p s
  | [], _ => rfl
  | kv :: s, hg => by
    obtain ⟨q, xs⟩ := kv
    have hxs : ∀ x ∈ xs, x.cls.priority = q :=
      fun x hx => hg (q, xs) (List.mem_cons_self _ _) x hx
    have ihr := flatten_filter_bucket p s
      (fun kv' hkv' => hg kv' (List.mem_cons_of_mem _ hkv'))
    simp only [List.map_cons, List.flatten_cons, List.filter_append, ihr,
      bucket]
    by_cases hq : q = p
    · have hxf : xs.filter (fun mi => mi.cls.priority == p) = xs := by
        refine List.filter_eq_self.mpr ?_
        intro x hx
        simp [hxs x hx, hq]
      simp [hq, hxf]
    · have hxf : xs.filter (fun mi => mi.cls.priority == p) = [] := by
        refine List.filter_eq_nil_iff.mpr ?_
        intro x hx
        simp [hxs x hx, hq]
      have hqb : (q == p) = false := by simpa using hq
      simp [hqb, hxf]

lemma goodDict_sortPairs {d : List (Int × List ModItem)}
    (hg : goodDict d) : goodDict (sortPairsByPrio d) :=
  fun kv hkv => hg kv (mem_sortPairsByPrio hkv)

lemma iter_filter (p : Int) (d : List (Int × List ModItem))
    (hg : goodDict d) :
    (iter_prio_dict d).filter (fun mi => mi.cls.priority == p) =
      bucket p d := by
  unfold iter_prio_dict
  rw [flatten_filter_bucket p _ (goodDict_sortPairs hg),
    bucket_eq_filter, filter_sortPairsByPrio, ← bucket_eq_filter]

lemma pairwise_of_const_prio {q : Int} :
    ∀ {xs : List ModItem}, (∀ x ∈ xs, x.cls.priority = q) →
      xs.Pairwise (fun a b => a.cls.priority ≤ b.cls.priority)
  | [], _ => List.Pairwise.nil
  | x :: xs, h => by
    refine List.pairwise_cons.mpr ⟨?_, ?_⟩
    · intro y hy
      rw [h x (List.mem_cons_self _ _), h y (List.mem_cons_of_mem _ hy)]
    · exact pairwise_of_const_prio
        (fun y hy => h y (List.mem_cons_of_mem _ hy))

lemma pairwise_flatten_prio :
    ∀ (s : List (Int × List ModItem)),
      s.Pairwise (fun a b => a.1 ≤ b.1) →
      (∀ kv ∈ s, ∀ x ∈ kv.2, x.cls.priority = kv.1) →
      ((s.map (·.2)).flatten).Pairwise
        (fun a b => a.cls.priority ≤ b.cls.priority)
  | [], _, _ => List.Pairwise.nil
  | kv :: s, hs, hg => by
    obtain ⟨hhd, htl⟩ := List.pairwise_cons.mp hs
    simp only [List.map_cons, List.flatten_cons]
    rw [List.pairwise_append]
    refine ⟨?_, ?_, ?_⟩
    · exact pairwise_of_const_prio
        (fun x hx => hg kv (List.mem_cons_self _ _) x hx)
    · exact pairwise_flatten_prio s htl
        (fun kv' hkv' => hg kv' (List.mem_cons_of_mem _ hkv'))
    · intro a ha b hb
      obtain ⟨l', hl', hbl⟩ := List.mem_flatten.mp hb
      obtain ⟨kv', hkv', hkvl⟩ := List.mem_map.mp hl'
      have hb' : b.cls.priority = kv'.1 :=
        hg kv' (List.mem_cons_of_mem _ hkv') b (hkvl ▸ hbl)
      have ha' : a.cls.priority = kv.1 :=
        hg kv (List.mem_cons_self _ _) a ha
      rw [ha', hb']
      exact hhd kv' hkv'

lemma iter_buildPrioDict_pairwise (l : List ModItem) :
    (iter_prio_dict (buildPrioDict [] l)).Pairwise
      (fun a b => a.cls.priority ≤ b.cls.priority) := by
  unfold iter_prio_dict
  refine pairwise_flatten_prio _ (sortPairsByPrio_sorted _) ?_
  exact goodDict_sortPairs
    (goodDict_buildPrioDict l [] (fun kv hkv => absurd hkv (by simp)))

lemma iter_buildPrioDict_filter (p : Int) (l : List ModItem) :
    (iter_prio_dict (buildPrioDict [] l)).filter
        (fun mi => mi.cls.priority == p) =
      l.filter (fun mi => mi.cls.priority == p) := by
  rw [iter_filter p _
      (goodDict_buildPrioDict l [] (fun kv hkv => absurd hkv (by simp))),
    bucket_buildPrioDict p l [] (by simp)]
  rfl

lemma modifierWalk_ok_fold {addr : Option String} {atype : Nat}
    {aname : String} :
    ∀ (items : List ModItem) (conf : Conf) (mods : List ModifierObj)
      (cf : Conf),
      modifierWalk addr atype aname items conf = .ok (mods, cf) →
      cf = mods.foldl (fun c m => m.action_conf c) conf ∧
      mods.length = items.length ∧
      ∀ (i : Nat) (mi : ModItem) (m : ModifierObj),
        items[i]? = some mi → mods[i]? = some m →
        mi.cls.init mi.conf = .ok m ∧ mi.cls.restriction &&& atype ≠ 0
  | [], conf, mods, cf, h => by
    rw [modifierWalk] at h
    injection h with h
    rw [Prod.mk.injEq] at h
    obtain ⟨h1, h2⟩ := h
    subst h1
    subst h2
    refine ⟨rfl, rfl, ?_⟩
    intro i mi m hmi _
    simp at hmi
  | mi0 :: rest, conf, mods, cf, h => by
    rw [modifierWalk] at h
    by_cases hcompat : mi0.cls.restriction &&& atype = 0
    · rw [if_pos hcompat] at h
      exact Except.noConfusion h
    · rw [if_neg hcompat] at h
      cases hinit : mi0.cls.init mi0.conf with
      | error e =>
        simp only [hinit] at h
        exact Except.noConfusion h
      | ok mobj =>
        simp only [hinit] at h
        cases hrec : modifierWalk addr atype aname rest
            (mobj.action_conf conf) with
        | error e =>
          simp only [hrec] at h
          exact Except.noConfusion h
        | ok pr =>
          obtain ⟨mods', cf'⟩ := pr
          simp only [hrec, Except.ok.injEq, Prod.mk.injEq] at h
          obtain ⟨h1, h2⟩ := h
          subst h1
          subst h2
          obtain ⟨ih1, ih2, ih3⟩ :=
            modifierWalk_ok_fold rest (mobj.action_conf conf) mods' cf' hrec
          refine ⟨?_, ?_, ?_⟩
          · rw [List.foldl_cons]
            exact ih1
          · simp [ih2]
          · intro i mi m hmi hm
            cases i with
            | zero =>
              rw [List.getElem?_cons_zero] at hmi hm
              injection hmi with hmi
              injection hm with hm
              subst hmi
              subst hm
              exact ⟨hinit, hcompat⟩
            | succ i' =>
              rw [List.getElem?_cons_succ] at hmi hm
              exact ih3 i' mi m hmi hm

lemma modifierWalk_incompat {addr : Option String} {atype : Nat}
    {aname : String} :
    ∀ (pre : List ModItem) (bad : ModItem) (rest : List ModItem)
      (conf : Conf),
      (∀ mi ∈ pre, mi.cls.restriction &&& atype ≠ 0 ∧
        (mi.cls.init mi.conf).isOk = true) →
      bad.cls.restriction &&& atype = 0 →
      modifierWalk addr atype aname (pre ++ bad :: rest) conf =
        .error (mkConfigError
          ("Bad step configuration: modifier \"" ++ bad.name ++
           "\" is incompatible with the action \"" ++ aname ++ "\"")
          addr)
  | [], bad, rest, conf, _, hbad => by
    rw [List.nil_append, modifierWalk, if_pos hbad]
  | mi0 :: pre, bad, rest, conf, hpre, hbad => by
    obtain ⟨hcompat, hinit⟩ := hpre mi0 (List.mem_cons_self _ _)
    rw [List.cons_append, modifierWalk, if_neg hcompat]
    cases hini : mi0.cls.init mi0.conf with
    | error e =>
      rw [hini] at hinit
      exact Bool.noConfusion hinit
    | ok mobj =>
      have hrec : modifierWalk addr atype aname (pre ++ bad :: rest)
          (mobj.action_conf conf) =
        .error (mkConfigError
          ("Bad step configuration: modifier \"" ++ bad.name ++
           "\" is incompatible with the action \"" ++ aname ++ "\"")
          addr) :=
        modifierWalk_incompat pre bad rest (mobj.action_conf conf)
          (fun mi hmi => hpre mi (List.mem_cons_of_mem _ hmi)) hbad
      simp only [hrec]

lemma classifyKey_mod_items {reg : Registry} {addr : Option String}
    {st st' : ParseState} {k : String} {v : Conf}
    (h : classifyKey reg addr st k v = .ok st') :
    st'.mod_items = buildPrioDict st.mod_items (modItemsOf reg [(k, v)]) := by
  unfold classifyKey at h
  by_cases hc : schemaKeys.contains k = true
  · rw [if_pos hc] at h
    cases v with
    | str s =>
      injection h with h
      subst h
      have hmod : modItemsOf reg [(k, Conf.str s)] = [] := by
        simp only [modItemsOf, List.filterMap_cons, hc, eq_self_iff_true,
          if_true, List.filterMap_nil]
      rw [hmod]
      by_cases hn : k = "name" <;> simp [hn, buildPrioDict]
    | null => exact Except.noConfusion h
    | num n => exact Except.noConfusion h
    | boolean b => exact Except.noConfusion h
    | list xs => exact Except.noConfusion h
    | dict kvs => exact Except.noConfusion h
  · rw [if_neg hc] at h
    rw [Bool.not_eq_true] at hc
    cases hlk : reg.actions.lookup k with
    | some acls =>
      rw [hlk] at h
      cases hact : st.action_item with
      | some prev =>
        rw [hact] at h
        exact Except.noConfusion h
      | none =>
        rw [hact] at h
        injection h with h
        subst h
        have hmod : modItemsOf reg [(k, v)] = [] := by
          simp only [modItemsOf, List.filterMap_cons, hc, Bool.false_eq_true,
            if_false, hlk, List.filterMap_nil]
        rw [hmod]
        rfl
    | none =>
      rw [hlk] at h
      cases hmk : reg.modifiers.lookup k with
      | some mcls =>
        rw [hmk] at h
        injection h with h
        subst h
        have hmod : modItemsOf reg [(k, v)] =
            [(⟨mcls, k, v⟩ : ModItem)] := by
          simp only [modItemsOf, List.filterMap_cons, hc, Bool.false_eq_true,
            if_false, hlk, hmk, List.filterMap_nil]
        rw [hmod]
        rfl
      | none =>
        rw [hmk] at h
        exact Except.noConfusion h

lemma modItemsOf_cons (reg : Registry) (k : String) (v : Conf)
    (rest : List (String × Conf)) :
    modItemsOf reg ((k, v) :: rest) =
      modItemsOf reg [(k, v)] ++ modItemsOf reg rest := by
  unfold modItemsOf
  rw [List.filterMap_cons, List.filterMap_cons]
  cases hx : (if schemaKeys.contains k then none
      else
        match reg.actions.lookup k with
        | some _ => none
        | none =>
          match reg.modifiers.lookup k with
          | some mcls => some (⟨mcls, k, v⟩ : ModItem)
          | none => none) with
  | none => simp [hx]
  | some mi => simp [hx]

lemma buildPrioDict_append (d0 : List (Int × List ModItem)) :
    ∀ (l1 l2 : List ModItem),
      buildPrioDict d0 (l1 ++ l2) = buildPrioDict (buildPrioDict d0 l1) l2 := by
  intro l1 l2
  unfold buildPrioDict
  exact List.foldl_append _ _ l1 l2

lemma classifyKeys_mod_items {reg : Registry} {addr : Option String} :
    ∀ (conf : List (String × Conf)) (st st' : ParseState),
      classifyKeys reg addr st conf = .ok st' →
      st'.mod_items = buildPrioDict st.mod_items (modItemsOf reg conf)
  | [], st, st', h => by
    injection h with h
    subst h
    rfl
  | (k, v) :: rest, st, st', h => by
    rw [classifyKeys] at h
    cases hck : classifyKey reg addr st k v with
    | error e =>
      rw [hck] at h
      exact Except.noConfusion h
    | ok st'' =>
      rw [hck] at h
      have h1 := classifyKeys_mod_items rest st'' st' h
      have h2 := classifyKey_mod_items hck
      rw [h1, h2, ← buildPrioDict_append, ← modItemsOf_cons]

lemma parse_step_ok_decomp {reg : Registry} {addr : Option String}
    {conf : List (String × Conf)} {ps : ParsedStep}
    (h : parse_step reg addr (.mapping conf) = .ok ps) :
    ∃ st ai,
      classifyKeys reg addr initState conf = .ok st ∧
      st.action_item = some ai ∧
      modifierWalk addr (if ai.cls.step_action then STEP else NORMAL)
          ai.name (iter_prio_dict st.mod_items) ai.conf =
        .ok (ps.modifiers, ps.actionConf) ∧
      ai.cls.init ps.actionConf = .ok ps.action := by
  rw [parse_step, parse_step_mapping] at h
  cases hck : classifyKeys reg addr initState conf with
  | error e =>
    rw [hck] at h
    exact Except.noConfusion h
  | ok st =>
    cases hact : st.action_item with
    | none =>
      simp only [hck, hact] at h
      exact Except.noConfusion h
    | some ai =>
      simp only [hck, hact] at h
      cases hw : modifierWalk addr
          (if ai.cls.step_action then STEP else NORMAL) ai.name
          (iter_prio_dict st.mod_items) ai.conf with
      | error e =>
        simp only [hw] at h
        exact Except.noConfusion h
      | ok pr =>
        obtain ⟨mods, final_conf⟩ := pr
        simp only [hw] at h
        cases hai : ai.cls.init final_conf with
        | error e =>
          simp only [hai] at h
          exact Except.noConfusion h
        | ok aobj =>
          simp only [hai, Except.ok.injEq] at h
          subst h
          exact ⟨st, ai, rfl, hact, hw, hai⟩

/-- C6: during step resolution the pending modifiers are walked in
ascending-priority order with ties broken by encounter order within a
priority bucket (the walked sequence is priority-sorted, and its
subsequence at each priority equals the encounter-order subsequence); a
walked modifier whose restriction mask is incompatible with the action's
category fails with a `ConfigError` naming the modifier and the action;
otherwise each modifier's `action_conf` hook is invoked with the current
(possibly already-rewritten) action configuration, its return value
becoming the configuration for the next modifier, and the fully rewritten
configuration is the one the action's constructor is finally invoked
with. -/
theorem c6_modifier_walk_order (reg : Registry) (addr : Option String) :
    (∀ (conf : List (String × Conf)) (st' : ParseState),
       classifyKeys reg addr initState conf = .ok st' →
       st'.mod_items = buildPrioDict [] (modItemsOf reg conf)) ∧
    (∀ (l : List ModItem),
       (iter_prio_dict (buildPrioDict [] l)).Pairwise
         (fun a b => a.cls.priority ≤ b.cls.priority)) ∧
    (∀ (l : List ModItem) (p : Int),
       (iter_prio_dict (buildPrioDict [] l)).filter
           (fun mi => mi.cls.priority == p) =
         l.filter (fun mi => mi.cls.priority == p)) ∧
    (∀ (atype : Nat) (aname : String) (pre : List ModItem) (bad : ModItem)
       (rest : List ModItem) (c0 : Conf),
       (∀ mi ∈ pre, mi.cls.restriction &&& atype ≠ 0 ∧
          (mi.cls.init mi.conf).isOk = true) →
       bad.cls.restriction &&& atype = 0 →
       modifierWalk addr atype aname (pre ++ bad :: rest) c0 =
         .error (mkConfigError
           ("Bad step configuration: modifier \"" ++ bad.name ++
            "\" is incompatible with the action \"" ++ aname ++ "\"")
           addr)) ∧
    (∀ (atype : Nat) (aname : String) (items : List ModItem) (c0 : Conf)
       (mods : List ModifierObj) (cf : Conf),
       modifierWalk addr atype aname items c0 = .ok (mods, cf) →
       cf = mods.foldl (fun c m => m.action_conf c) c0 ∧
       mods.length = items.length ∧
       ∀ (i : Nat) (mi : ModItem) (m : ModifierObj),
         items[i]? = some mi → mods[i]? = some m →
         mi.cls.init mi.conf = .ok m ∧ mi.cls.restriction &&& atype ≠ 0) ∧
    (∀ (conf : List (String × Conf)) (ps : ParsedStep),
       parse_step reg addr (.mapping conf) = .ok ps →
       ∃ st ai,
         classifyKeys reg addr initState conf = .ok st ∧
         st.action_item = some ai ∧
         modifierWalk addr (if ai.cls.step_action then STEP else NORMAL)
             ai.name (iter_prio_dict st.mod_items) ai.conf =
           .ok (ps.modifiers, ps.actionConf) ∧
         ai.cls.init ps.actionConf = .ok ps.action ∧
         ps.actionConf =
           ps.modifiers.foldl (fun c m => m.action_conf c) ai.conf) := by
  refine ⟨?_, ?_, ?_, ?_, ?_, ?_⟩
  · intro conf st' h
    exact classifyKeys_mod_items conf initState st' h
  · exact iter_buildPrioDict_pairwise
  · intro l p
    exact iter_buildPrioDict_filter p l
  · intro atype aname pre bad rest c0 hpre hbad
    exact modifierWalk_incompat pre bad rest c0 hpre hbad
  · intro atype aname items c0 mods cf h
    exact modifierWalk_ok_fold items c0 mods cf h
  · intro conf ps h
    obtain ⟨st, ai, h1, h2, h3, h4⟩ := parse_step_ok_decomp h
    obtain ⟨hf, _, _⟩ := modifierWalk_ok_fold _ _ _ _ h3
    exact ⟨st, ai, h1, h2, h3, h4, hf⟩

/-- A sample action class used by the parsing witnesses: a normal action
whose constructor stores the configuration. -/
def sampleActionClass : ActionClass := ⟨false, fun c => .ok ⟨c⟩⟩

/-- A registry with two actions and no modifiers. -/
def sampleRegistry : Registry :=
  ⟨[("act1", sampleActionClass), ("act2", sampleActionClass)], []⟩

/-- Witness for C5: a configuration naming both registered actions fails
with the `ConfigError` naming both. -/
theorem c5_exactly_one_action_witness :
    parse_step sampleRegistry none
        (.mapping [("act1", Conf.null), ("act2", Conf.null)]) =
      .error (mkConfigError
        ("Bad step configuration: action \"" ++ "act2" ++
         "\" specified, but action \"" ++ "act1" ++
         "\" already processed") none) :=
  (c5_exactly_one_action sampleRegistry none).2.2.2
    [("act1", Conf.null)] [] "act2" Conf.null
    ⟨some ⟨sampleActionClass, "act1", Conf.null⟩, [], none, none⟩
    ⟨sampleActionClass, "act1", Conf.null⟩
    rfl rfl rfl

/-- A modifier object whose `action_conf` hook is the identity. -/
def inertModObj : ModifierObj := ⟨fun c => c⟩

/-- A modifier class compatible with normal actions. -/
def normalModifierClass (p : Int) : ModifierClass :=
  ⟨p, NORMAL, fun _ => .ok inertModObj⟩

/-- A modifier class restricted to step actions. -/
def stepOnlyModifierClass : ModifierClass :=
  ⟨5, STEP, fun _ => .ok inertModObj⟩

/-- Witness for C6: walking a compatible modifier and then a
step-only-restricted modifier against a normal action fails with the
incompatibility `ConfigError`. -/
theorem c6_modifier_walk_order_witness :
    modifierWalk none NORMAL "act1"
        ([⟨normalModifierClass 1, "m1", Conf.null⟩] ++
          (⟨stepOnlyModifierClass, "bad", Conf.null⟩ : ModItem) :: [])
        Conf.null =
      .error (mkConfigError
        ("Bad step configuration: modifier \"" ++ "bad" ++
         "\" is incompatible with the action \"" ++ "act1" ++ "\"")
        none) :=
  (c6_modifier_walk_order sampleRegistry none).2.2.2.1 NORMAL "act1"
    [⟨normalModifierClass 1, "m1", Conf.null⟩]
    ⟨stepOnlyModifierClass, "bad", Conf.null⟩ [] Conf.null
    (by intro mi hmi
        cases hmi with
        | head => exact ⟨by decide, rfl⟩
        | tail _ h2 => cases h2)
    (by decide)

end Timid
